import Mathlib

/-!
Shallow embedding of the statistical plotting core of `src/plots.rs`
(report-builder).

Modelling conventions:
* `f64` values are modelled by `FP`: exact rationals extended with the IEEE
  special values `inf`, `neginf` and `nan`.  Arithmetic on finite values is
  exact rational arithmetic (an idealisation of correctly rounded binary64
  arithmetic); every claim settled below only exercises values on which the
  two agree (small integer counts, halves, the constants 0 and 1).
* Panics (`assert!`, `assert_eq!`, `unwrap`, out-of-bounds indexing, usize
  underflow) are modelled as `none`.  The Rust builders return
  `Result<Plot, String>`, so the embedded builders return
  `Option (Except String PlotSpec)`: `none` is a panic, `some (.ok p)` is
  `Ok(plot)`, `some (.error e)` would be `Err(e)` (no source path produces
  one).
* `slice::sort_by` with the comparator
  `|a, b| a.partial_cmp(b).unwrap()` is modelled by an insertion sort over
  the partial comparator, returning `none` as soon as an executed comparison
  is undefined (`partial_cmp` returned `None`, i.e. a NaN was compared).
  Rust's stable sort performs at least one comparison involving every
  element as soon as the slice has two or more elements, and so does the
  insertion sort; on NaN-free inputs both succeed with the same sorted
  output, so the two agree observably.
-/

/-- Model of `f64`: exact rationals plus the IEEE special values. -/
inductive FP where
  | fin (q : ℚ)
  | inf
  | neginf
  | nan
deriving DecidableEq, Repr

/-- `f64::partial_cmp`: `None` whenever a NaN is involved, otherwise the
total order `-inf < finite < inf` (by rational comparison on finites). -/
def cmpF : FP → FP → Option Ordering
  | .nan, _ => none
  | .fin _, .nan => none
  | .inf, .nan => none
  | .neginf, .nan => none
  | .neginf, .neginf => some .eq
  | .neginf, .fin _ => some .lt
  | .neginf, .inf => some .lt
  | .fin _, .neginf => some .gt
  | .fin a, .fin b => some (if a < b then .lt else if a = b then .eq else .gt)
  | .fin _, .inf => some .lt
  | .inf, .neginf => some .gt
  | .inf, .fin _ => some .gt
  | .inf, .inf => some .eq

/-- Rust `a >= b` on `f64`: true iff the partial comparison is defined and
is `Greater` or `Equal` (hence always false on NaN). -/
def geB (a b : FP) : Bool :=
  match cmpF a b with
  | some .gt => true
  | some .eq => true
  | _ => false

/-- The order underlying ascending `sort_by` output: `a` may precede `b`. -/
def leP (a b : FP) : Prop :=
  cmpF a b = some .lt ∨ cmpF a b = some .eq

/-- Strict version of `leP`. -/
def ltP (a b : FP) : Prop :=
  cmpF a b = some .lt

/-- `f64::min` (returns the other operand when one is NaN). -/
def minF : FP → FP → FP
  | .nan, b => b
  | a, .nan => a
  | a, b =>
    match cmpF a b with
    | some .gt => b
    | _ => a

/-- `f64::max` (returns the other operand when one is NaN). -/
def maxF : FP → FP → FP
  | .nan, b => b
  | a, .nan => a
  | a, b =>
    match cmpF a b with
    | some .lt => b
    | _ => a

/-- IEEE negation on the model. -/
def negF : FP → FP
  | .nan => .nan
  | .inf => .neginf
  | .neginf => .inf
  | .fin a => .fin (-a)

/-- IEEE addition on the model (exact on finite values; signed zeros are not
distinguished). -/
def addF : FP → FP → FP
  | .nan, _ => .nan
  | _, .nan => .nan
  | .inf, .neginf => .nan
  | .neginf, .inf => .nan
  | .inf, _ => .inf
  | _, .inf => .inf
  | .neginf, _ => .neginf
  | _, .neginf => .neginf
  | .fin a, .fin b => .fin (a + b)

/-- IEEE subtraction `a - b`, as `a + (-b)`. -/
def subF (a b : FP) : FP := addF a (negF b)

/-- IEEE multiplication on the model (exact on finite values). -/
def mulF : FP → FP → FP
  | .nan, _ => .nan
  | _, .nan => .nan
  | .inf, .inf => .inf
  | .inf, .neginf => .neginf
  | .neginf, .inf => .neginf
  | .neginf, .neginf => .inf
  | .inf, .fin b => if b = 0 then .nan else if 0 < b then .inf else .neginf
  | .fin a, .inf => if a = 0 then .nan else if 0 < a then .inf else .neginf
  | .neginf, .fin b => if b = 0 then .nan else if 0 < b then .neginf else .inf
  | .fin a, .neginf => if a = 0 then .nan else if 0 < a then .neginf else .inf
  | .fin a, .fin b => .fin (a * b)

/-- IEEE division on the model (exact on finite values; `x / 0` is a signed
infinity for `x ≠ 0` and NaN for `x = 0`, as for binary64 with positive
zero divisor). -/
def divF : FP → FP → FP
  | .nan, _ => .nan
  | _, .nan => .nan
  | .inf, .inf => .nan
  | .inf, .neginf => .nan
  | .neginf, .inf => .nan
  | .neginf, .neginf => .nan
  | .inf, .fin b => if 0 ≤ b then .inf else .neginf
  | .neginf, .fin b => if 0 ≤ b then .neginf else .inf
  | .fin _, .inf => .fin 0
  | .fin _, .neginf => .fin 0
  | .fin a, .fin b =>
    if b = 0 then (if a = 0 then .nan else if 0 < a then .inf else .neginf)
    else .fin (a / b)

/-- One insertion step of the sort underlying
`data.sort_by(|a, b| a.partial_cmp(b).unwrap())`: inserting into an already
sorted list, `none` when an executed comparison involves a NaN (the
`unwrap` panics). -/
def insertOpt (a : FP) : List FP → Option (List FP)
  | [] => some [a]
  | b :: l =>
    match cmpF a b with
    | none => none
    | some .gt => (insertOpt a l).map (fun t => b :: t)
    | some .lt => some (a :: b :: l)
    | some .eq => some (a :: b :: l)

/-- `data.sort_by(|a, b| a.partial_cmp(b).unwrap())`: `none` models the
panic of the unwrapped comparison on NaN (see the module docstring for why
this agrees with Rust's stable sort). -/
def sortOpt (l : List FP) : Option (List FP) :=
  l.foldr (fun a acc => acc.bind (insertOpt a)) (some [])

/-- Render mode of a trace (`plotly::common::Mode`). -/
inductive TraceMode where
  | markers
  | lines
deriving DecidableEq, Repr

/-- One plotly trace, restricted to the fields the source sets:
`Histogram::new(..).name(..)`,
`Scatter::new(..).mode(..).name(..).line(..).marker(..).web_gl_mode(..)`,
`BoxPlot::new_xy(..).name(..).box_mean(..)`. -/
structure PlotTrace where
  traceType : String
  x : List FP := []
  y : List FP := []
  xcat : List String := []
  name : String := ""
  mode : Option TraceMode := none
  lineColor : Option String := none
  lineDash : Option String := none
  markerSize : Option Nat := none
  webGlMode : Bool := false
  boxMean : Bool := false
deriving DecidableEq, Repr

/-- The layout fields the source sets (`Layout::new().title(..).x_axis(..)
.y_axis(..)` plus `tick_angle`, `show_legend`, `legend(orientation)`). -/
structure PlotLayout where
  title : String := ""
  xTitle : String := ""
  yTitle : String := ""
  xTickAngle : Option ℚ := none
  showLegend : Option Bool := none
  legendOrientation : Option String := none
deriving DecidableEq, Repr

/-- A `plotly::Plot`: the traces added with `add_trace`, in order, and the
layout set with `set_layout`. -/
structure PlotSpec where
  traces : List PlotTrace
  layout : PlotLayout
deriving DecidableEq, Repr

/-- The target/decoy partition loop shared by `plot_score_histogram` and
`plot_pp` (push to `scores_target` when the label is `1`, else to
`scores_decoy`). -/
def partitionTD (scores : List FP) (labels : List Int) : List FP × List FP :=
  ((scores.zip labels).filterMap (fun p => if p.2 = 1 then some p.1 else none),
   (scores.zip labels).filterMap (fun p => if p.2 = 1 then none else some p.1))

/-- The `y` vector built by `ecdf`: `(1..=data.len()).map(|i| i as f64 / n)`
computed on the sorted buffer `s`. -/
def ecdfY (s : List FP) : List FP :=
  (List.range s.length).map fun (i : ℕ) =>
    divF (.fin ((i : ℚ) + 1)) (.fin (s.length : ℚ))

/-- `fn ecdf(data: &mut Vec<f64>) -> (Vec<f64>, Vec<f64>)`: sort the buffer
in place (panicking on a NaN comparison, modelled by `none`), then return
the sorted values and the cumulative fractions `i / n`. -/
def ecdf (data : List FP) : Option (List FP × List FP) :=
  (sortOpt data).map fun s => (s, ecdfY s)

/-- `Iterator::position`: index of the first element satisfying `p`. -/
def position (p : FP → Bool) : List FP → Option Nat
  | [] => none
  | a :: l => if p a then some 0 else (position p l).map (· + 1)

/-- Body of the closure in `interpolate_ecdf` for one query point `xi`:
`let idx = x.iter().position(|&xv| xv >= xi).unwrap_or(x.len() - 1); y[idx]`.
`none` models the panics: `x.len() - 1` underflows when `x` is empty, and
`y[idx]` is an out-of-bounds index when `idx >= y.len()`. -/
def interpOne (x y : List FP) (xi : FP) : Option FP :=
  match position (fun xv => geB xv xi) x with
  | some idx => y.get? idx
  | none => if x.length = 0 then none else y.get? (x.length - 1)

/-- `Option`-propagating map used to model an iterator whose body can
panic (`none` as soon as one element's body panics). -/
def mapOpt (f : FP → Option FP) : List FP → Option (List FP)
  | [] => some []
  | a :: l =>
    match f a with
    | none => none
    | some b => (mapOpt f l).map (fun r => b :: r)

/-- `fn interpolate_ecdf(x, y, x_seq) -> Vec<f64>` from the source, with
`none` for the panics described at `interpOne`. -/
def interpolate_ecdf (x y x_seq : List FP) : Option (List FP) :=
  mapOpt (interpOne x y) x_seq

/-- `labels.iter().filter(|&&l| l == -1).count()`. -/
def countDecoys (labels : List Int) : Nat :=
  (labels.filter fun l => l == -1).length

/-- `labels.iter().filter(|&&l| l == 1).count()`. -/
def countTargets (labels : List Int) : Nat :=
  (labels.filter fun l => l == 1).length

/-- `fn estimate_pi0(labels: &Vec<i32>) -> f64`: the plain f64 quotient
`count_decoys / count_targets` — the function has no error path. -/
def estimate_pi0 (labels : List Int) : FP :=
  divF (.fin (countDecoys labels : ℚ)) (.fin (countTargets labels : ℚ))

/-- `itertools_num::linspace(start, stop, n)`: `start + i * step` with
`step = (stop - start) / (n - 1)`. -/
def linspaceF (start stop : FP) (n : Nat) : List FP :=
  (List.range n).map fun (i : ℕ) =>
    addF start (mulF (.fin (i : ℚ)) (divF (subF stop start) (.fin ((n : ℚ) - 1))))

/-- Round half to even, the rounding used by Rust's `{:.3}` float
formatting at the last printed digit. -/
def roundTiesEven (q : ℚ) : ℤ :=
  if q - ⌊q⌋ < 1 / 2 then ⌊q⌋
  else if 1 / 2 < q - ⌊q⌋ then ⌊q⌋ + 1
  else if ⌊q⌋ % 2 = 0 then ⌊q⌋ else ⌊q⌋ + 1

/-- Left-pad a fractional part to three digits. -/
def pad3 (n : Nat) : String :=
  if n < 10 then "00" ++ toString n
  else if n < 100 then "0" ++ toString n
  else toString n

/-- Rust `format!("{:.3}", v)` for an `f64` value `v`: three digits after
the decimal point, rounding ties to even; `inf`/`NaN` render as in Rust. -/
def fmt3 : FP → String
  | .nan => "NaN"
  | .inf => "inf"
  | .neginf => "-inf"
  | .fin q =>
    let m := (roundTiesEven (|q| * 1000)).toNat
    let s := toString (m / 1000) ++ "." ++ pad3 (m % 1000)
    if q < 0 then "-" ++ s else s

/-- `pub fn plot_score_histogram(scores, labels, title, x_title)`.
The two `assert!`s panic (model: `none`); every surviving path returns
`Ok(plot)` with the two overlay histogram traces. -/
def plot_score_histogram (scores : List FP) (labels : List Int)
    (title x_title : String) : Option (Except String PlotSpec) :=
  if scores.length ≠ labels.length then none
  else if ∃ l ∈ labels, ¬(l = 1 ∨ l = -1) then none
  else
    some (Except.ok
      { traces :=
          [{ traceType := "histogram", x := (partitionTD scores labels).1,
             name := "Target" },
           { traceType := "histogram", x := (partitionTD scores labels).2,
             name := "Decoy" }],
        layout := { title := title, xTitle := x_title, yTitle := "Density" } })

/-- The part of `plot_pp` after the two `ecdf` calls (lines 97–134 of
`plots.rs`): unwrap first/last of both sorted score vectors, build the
1000-point grid, interpolate both ECDFs, and assemble the three traces.
`pi0` is `estimate_pi0(labels)` (computed on line 105, between the
interpolations and the trace construction; it does not depend on anything
computed here, so passing it as an argument is order-equivalent). -/
def ppStage2 (x_target y_target x_decoy y_decoy : List FP) (pi0 : FP)
    (title : String) : Option (Except String PlotSpec) :=
  match x_target.head?, x_decoy.head?, x_target.getLast?, x_decoy.getLast? with
  | some tFirst, some dFirst, some tLast, some dLast =>
    let x_seq := linspaceF (minF tFirst dFirst) (maxF tLast dLast) 1000
    match interpolate_ecdf x_target y_target x_seq,
          interpolate_ecdf x_decoy y_decoy x_seq with
    | some y_target_interp, some y_decoy_interp =>
      some (Except.ok
        { traces :=
            [{ traceType := "scatter", x := y_decoy_interp, y := y_target_interp,
               mode := some .markers, name := "Target vs Decoy ECDF" },
             { traceType := "scatter", x := [.fin 0, .fin 1], y := [.fin 0, .fin 1],
               mode := some .lines, name := "y = x (Perfect match)",
               lineColor := some "red", lineDash := some "dash" },
             { traceType := "scatter", x := y_decoy_interp,
               y := y_decoy_interp.map (fun v => mulF pi0 v),
               mode := some .lines, name := "Estimated π₀ = " ++ fmt3 pi0,
               lineColor := some "blue", lineDash := some "dot" }],
          layout := { title := title, xTitle := "Decoy ECDF",
                      yTitle := "Target ECDF" } })
    | _, _ => none
  | _, _, _, _ => none

/-- `pub fn plot_pp(scores, labels, title)`: the two `assert!`s, the
partition loop, the two in-place `ecdf` calls on the partition copies, and
then `ppStage2`. -/
def plot_pp (scores : List FP) (labels : List Int) (title : String) :
    Option (Except String PlotSpec) :=
  if scores.length ≠ labels.length then none
  else if ∃ l ∈ labels, ¬(l = 1 ∨ l = -1) then none
  else
    match ecdf (partitionTD scores labels).1, ecdf (partitionTD scores labels).2 with
    | some tp, some dp => ppStage2 tp.1 tp.2 dp.1 dp.2 (estimate_pi0 labels) title
    | _, _ => none

/-- The trace-building loop of `plot_boxplot`: for `(i, s)` in
`scores.iter().enumerate()`, `filenames[i]` (an out-of-bounds panic when
`i >= filenames.len()`, modelled by `none`) names a box trace whose
categorical x repeats the filename once per value. -/
def boxTraces (filenames : List String) : List (List FP) → Nat → Option (List PlotTrace)
  | [], _ => some []
  | s :: rest, i =>
    match filenames.get? i with
    | none => none
    | some fn =>
      (boxTraces filenames rest (i + 1)).map fun ts =>
        { traceType := "box", y := s, xcat := List.replicate s.length fn,
          name := fn, boxMean := true } :: ts

/-- `pub fn plot_boxplot(scores, filenames, title, x_title, y_title)`. -/
def plot_boxplot (scores : List (List FP)) (filenames : List String)
    (title x_title y_title : String) : Option (Except String PlotSpec) :=
  if scores.length ≠ filenames.length then none
  else
    (boxTraces filenames scores 0).map fun ts =>
      Except.ok
        { traces := ts,
          layout := { title := title, xTitle := x_title, yTitle := y_title,
                      xTickAngle := some 45, showLegend := some false } }

/-- The trace-building loop of `plot_scatter`: for `(i, (x_i, y_i))` in
`x.iter().zip(y.iter()).enumerate()`, `labels[i]` (an out-of-bounds panic
when `i >= labels.len()`, modelled by `none`) names a marker trace.  Note
the source calls `.web_gl_mode(true)` — the literal `true`, not the
`web_gl_mode` variable computed in `plot_scatter`. -/
def scatterTraces (labels : List String) :
    List (List FP × List FP) → Nat → Option (List PlotTrace)
  | [], _ => some []
  | p :: rest, i =>
    match labels.get? i with
    | none => none
    | some nm =>
      (scatterTraces labels rest (i + 1)).map fun ts =>
        { traceType := "scatter", x := p.1, y := p.2, name := nm,
          mode := some .markers, markerSize := some 10, webGlMode := true } :: ts

/-- `pub fn plot_scatter(x, y, labels, title, x_title, y_title)`: the
length `assert_eq!`, then `let web_gl_mode = x[0].len() > 10_000;` (an
out-of-bounds panic when `x` is empty; the variable is never read
afterwards — it is dead code, kept here as in the source), then the trace
loop. -/
def plot_scatter (x y : List (List FP)) (labels : List String)
    (title x_title y_title : String) : Option (Except String PlotSpec) :=
  if x.length ≠ y.length then none
  else
    match x.head? with
    | none => none
    | some x0 =>
      let web_gl_mode := x0.length > 10000
      (scatterTraces labels (x.zip y) 0).map fun ts =>
        Except.ok
          { traces := ts,
            layout := { title := title, xTitle := x_title, yTitle := y_title,
                        legendOrientation := some "vertical" } }

/-- A store of caller-visible buffers, used to make the `&Vec`/`&mut Vec`
borrow structure of the builders explicit for the frame property: `bufs r`
is the contents of buffer `r`, and refs below `next` are allocated. -/
structure BufStore (α : Type) where
  bufs : Nat → α
  next : Nat

/-- Read a buffer. -/
def BufStore.read {α : Type} (h : BufStore α) (r : Nat) : α := h.bufs r

/-- Overwrite a buffer in place. -/
def BufStore.write {α : Type} (h : BufStore α) (r : Nat) (v : α) : BufStore α :=
  ⟨fun i => if i = r then v else h.bufs i, h.next⟩

/-- Allocate a fresh buffer holding `v`, returning its ref. -/
def BufStore.alloc {α : Type} (h : BufStore α) (v : α) : BufStore α × Nat :=
  (⟨fun i => if i = h.next then v else h.bufs i, h.next + 1⟩, h.next)

/-- `ecdf(data: &mut Vec<f64>)` acting on buffer `r` of the store: the sort
happens in place (the buffer is overwritten with its sorted contents), and
the returned `x` is `data.clone()` of the now-sorted buffer. -/
def ecdfH (h : BufStore (List FP)) (r : Nat) :
    Option (BufStore (List FP) × List FP × List FP) :=
  match sortOpt (h.read r) with
  | none => none
  | some s => some (h.write r s, s, ecdfY s)

/-- `plot_pp` with the caller-owned buffers explicit: `scoresR`/`labelsR`
are the caller's `&Vec<f64>`/`&Vec<i32>` arguments.  The body reads them,
allocates the two fresh partition vectors (`Vec::new()` plus the pushes of
copied elements, written here as one allocation holding the loop's final
contents), and hands only those fresh buffers to the in-place `ecdf`.  No
statement of the source writes through the shared borrows. -/
def plot_ppH (hF : BufStore (List FP)) (hI : BufStore (List Int))
    (scoresR labelsR : Nat) (title : String) :
    Option (Except String PlotSpec × BufStore (List FP) × BufStore (List Int)) :=
  let scores := hF.read scoresR
  let labels := hI.read labelsR
  if scores.length ≠ labels.length then none
  else if ∃ l ∈ labels, ¬(l = 1 ∨ l = -1) then none
  else
    let hF1 := (hF.alloc (partitionTD scores labels).1).1
    let stR := (hF.alloc (partitionTD scores labels).1).2
    let hF2 := (hF1.alloc (partitionTD scores labels).2).1
    let sdR := (hF1.alloc (partitionTD scores labels).2).2
    match ecdfH hF2 stR with
    | none => none
    | some (hF3, x_target, y_target) =>
      match ecdfH hF3 sdR with
      | none => none
      | some (hF4, x_decoy, y_decoy) =>
        (ppStage2 x_target y_target x_decoy y_decoy (estimate_pi0 labels) title).map
          fun res => (res, hF4, hI)

/-- `plot_score_histogram` with the caller-owned buffers explicit.  Its
body only iterates the two shared borrows (the partition loop pushes copies
into function-local vectors that never escape), so the store is returned
untouched. -/
def plot_score_histogramH (hF : BufStore (List FP)) (hI : BufStore (List Int))
    (scoresR labelsR : Nat) (title x_title : String) :
    Option (Except String PlotSpec × BufStore (List FP) × BufStore (List Int)) :=
  (plot_score_histogram (hF.read scoresR) (hI.read labelsR) title x_title).map
    fun res => (res, hF, hI)

/-- `plot_boxplot` with the caller-owned `&Vec<Vec<f64>>` buffer explicit
(`filenames` is passed by value — moved — so it is not a borrowed buffer).
The body only reads the borrow (`s.to_vec()` copies), so the store is
returned untouched. -/
def plot_boxplotH (hG : BufStore (List (List FP))) (scoresR : Nat)
    (filenames : List String) (title x_title y_title : String) :
    Option (Except String PlotSpec × BufStore (List (List FP))) :=
  (plot_boxplot (hG.read scoresR) filenames title x_title y_title).map
    fun res => (res, hG)

/-- `plot_scatter` with the caller-owned `&Vec<Vec<f64>>` buffers explicit
(`labels` is passed by value — moved).  The body only reads the borrows
(`x_i.to_vec()`/`y_i.to_vec()` copy), so the store is returned untouched. -/
def plot_scatterH (hG : BufStore (List (List FP))) (xR yR : Nat)
    (labels : List String) (title x_title y_title : String) :
    Option (Except String PlotSpec × BufStore (List (List FP))) :=
  (plot_scatter (hG.read xR) (hG.read yR) labels title x_title y_title).map
    fun res => (res, hG)

theorem cmpF_nan_right (a : FP) : cmpF a .nan = none := by
  cases a <;> rfl

theorem cmpF_self {a : FP} (h : a ≠ .nan) : cmpF a a = some .eq := by
  cases a with
  | fin q => simp [cmpF]
  | inf => rfl
  | neginf => rfl
  | nan => exact absurd rfl h

theorem cmpF_ne_none {a b : FP} (ha : a ≠ .nan) (hb : b ≠ .nan) :
    cmpF a b ≠ none := by
  cases a <;> cases b <;> simp_all [cmpF]

theorem cmpF_eq_eq {a b : FP} (h : cmpF a b = some .eq) : a = b := by
  cases a <;> cases b <;> simp_all [cmpF]

theorem leP_nan_left (b : FP) : ¬ leP .nan b := by
  simp [leP, cmpF]

theorem leP_nan_right (a : FP) : ¬ leP a .nan := by
  simp [leP, cmpF_nan_right]

theorem leP_fin_iff {a b : ℚ} : leP (.fin a) (.fin b) ↔ a ≤ b := by
  simp only [leP, cmpF, Option.some.injEq]
  split_ifs with h1 h2
  · exact iff_of_true (Or.inl rfl) h1.le
  · exact iff_of_true (Or.inr rfl) h2.le
  · exact iff_of_false (by decide)
      (fun hab => (lt_or_eq_of_le hab).elim h1 h2)

theorem leP_neginf_fin (b : ℚ) : leP .neginf (.fin b) := Or.inl rfl

theorem leP_neginf_inf : leP FP.neginf .inf := Or.inl rfl

theorem leP_neginf_neginf : leP FP.neginf .neginf := Or.inr rfl

theorem leP_fin_inf (a : ℚ) : leP (.fin a) .inf := Or.inl rfl

theorem leP_inf_inf : leP FP.inf .inf := Or.inr rfl

theorem not_leP_fin_neginf (a : ℚ) : ¬ leP (.fin a) .neginf := by
  simp [leP, cmpF]

theorem not_leP_inf_fin (b : ℚ) : ¬ leP .inf (.fin b) := by
  simp [leP, cmpF]

theorem not_leP_inf_neginf : ¬ leP FP.inf .neginf := by
  simp [leP, cmpF]

theorem leP_trans {a b c : FP} (h1 : leP a b) (h2 : leP b c) : leP a c := by
  cases a <;> cases b <;> cases c <;>
    simp_all [leP_nan_left, leP_nan_right, leP_fin_iff, leP_neginf_fin,
      leP_neginf_inf, leP_neginf_neginf, leP_fin_inf, leP_inf_inf,
      not_leP_fin_neginf, not_leP_inf_fin, not_leP_inf_neginf]
  exact le_trans h1 h2

theorem cmpF_gt_flip {a b : FP} (h : cmpF a b = some .gt) : leP b a := by
  cases a <;> cases b <;> simp_all [cmpF, leP_neginf_fin, leP_neginf_inf,
    leP_fin_inf, leP_fin_iff]

theorem leP_of_cmpF_lt {a b : FP} (h : cmpF a b = some .lt) : leP a b :=
  Or.inl h

theorem ltP_of_leP_ne {a b : FP} (h : leP a b) (hne : a ≠ b) : ltP a b := by
  rcases h with h | h
  · exact h
  · exact absurd (cmpF_eq_eq h) hne

theorem geB_self {a : FP} (h : a ≠ .nan) : geB a a = true := by
  simp [geB, cmpF_self h]

theorem geB_false_of_ltP {a b : FP} (h : ltP a b) : geB a b = false := by
  simp [geB, ltP] at h ⊢
  rw [h]

theorem instTransLeP : Transitive leP := fun _ _ _ => leP_trans

theorem insertOpt_perm {a : FP} :
    ∀ {l t : List FP}, insertOpt a l = some t → t.Perm (a :: l) := by
  intro l
  induction l with
  | nil =>
    intro t h
    simp only [insertOpt, Option.some.injEq] at h
    exact h ▸ List.Perm.refl _
  | cons b l ih =>
    intro t h
    simp only [insertOpt] at h
    split at h
    · exact absurd h (by simp)
    · rcases ho : insertOpt a l with _ | t'
      · rw [ho] at h; exact absurd h (by simp)
      · rw [ho] at h
        simp only [Option.map_some', Option.some.injEq] at h
        subst h
        exact ((ih ho).cons b).trans (List.Perm.swap a b l)
    · simp only [Option.some.injEq] at h
      exact h ▸ List.Perm.refl _
    · simp only [Option.some.injEq] at h
      exact h ▸ List.Perm.refl _

theorem insertOpt_chain {a : FP} :
    ∀ {l t : List FP}, List.Chain' leP l → insertOpt a l = some t →
      List.Chain' leP t := by
  intro l
  induction l with
  | nil =>
    intro t _ h
    simp only [insertOpt, Option.some.injEq] at h
    exact h ▸ List.chain'_singleton a
  | cons b l ih =>
    intro t hc h
    simp only [insertOpt] at h
    split at h
    · exact absurd h (by simp)
    · rcases ho : insertOpt a l with _ | t'
      · rw [ho] at h; exact absurd h (by simp)
      · rw [ho] at h
        simp only [Option.map_some', Option.some.injEq] at h
        subst h
        rename_i hgt
        refine List.chain'_cons'.mpr ⟨?_, ih hc.tail ho⟩
        intro y hy
        cases l with
        | nil =>
          simp only [insertOpt, Option.some.injEq] at ho
          subst ho
          simp only [List.head?_cons, Option.mem_def, Option.some.injEq] at hy
          exact hy ▸ cmpF_gt_flip hgt
        | cons c l2 =>
          simp only [insertOpt] at ho
          split at ho
          · exact absurd ho (by simp)
          · rcases ho2 : insertOpt a l2 with _ | t2
            · rw [ho2] at ho; exact absurd ho (by simp)
            · rw [ho2] at ho
              simp only [Option.map_some', Option.some.injEq] at ho
              subst ho
              simp only [List.head?_cons, Option.mem_def, Option.some.injEq] at hy
              exact hy ▸ (List.chain'_cons.mp hc).1
          · simp only [Option.some.injEq] at ho
            subst ho
            simp only [List.head?_cons, Option.mem_def, Option.some.injEq] at hy
            exact hy ▸ cmpF_gt_flip hgt
          · simp only [Option.some.injEq] at ho
            subst ho
            simp only [List.head?_cons, Option.mem_def, Option.some.injEq] at hy
            exact hy ▸ cmpF_gt_flip hgt
    · simp only [Option.some.injEq] at h
      subst h
      rename_i hlt
      exact List.chain'_cons.mpr ⟨Or.inl hlt, hc⟩
    · simp only [Option.some.injEq] at h
      subst h
      rename_i heq
      exact List.chain'_cons.mpr ⟨Or.inr heq, hc⟩

theorem insertOpt_isSome {a : FP} (ha : a ≠ .nan) :
    ∀ {l : List FP}, (∀ x ∈ l, x ≠ FP.nan) → ∃ t, insertOpt a l = some t := by
  intro l
  induction l with
  | nil => exact fun _ => ⟨[a], rfl⟩
  | cons b l ih =>
    intro hl
    have hb : b ≠ FP.nan := hl b (List.mem_cons_self b l)
    rcases hc : cmpF a b with _ | o
    · exact absurd hc (cmpF_ne_none ha hb)
    · obtain ⟨t, ht⟩ := ih (fun x hx => hl x (List.mem_cons_of_mem b hx))
      cases o with
      | lt => exact ⟨a :: b :: l, by simp [insertOpt, hc]⟩
      | eq => exact ⟨a :: b :: l, by simp [insertOpt, hc]⟩
      | gt => exact ⟨b :: t, by simp [insertOpt, hc, ht]⟩

theorem sortOpt_cons (a : FP) (l : List FP) :
    sortOpt (a :: l) = (sortOpt l).bind (insertOpt a) := rfl

theorem sortOpt_perm :
    ∀ {l s : List FP}, sortOpt l = some s → s.Perm l := by
  intro l
  induction l with
  | nil =>
    intro s h
    simp only [sortOpt, List.foldr_nil, Option.some.injEq] at h
    exact h ▸ List.Perm.refl _
  | cons a l ih =>
    intro s h
    rw [sortOpt_cons] at h
    rcases hs : sortOpt l with _ | s'
    · rw [hs] at h; exact absurd h (by simp)
    · rw [hs] at h
      simp only [Option.some_bind] at h
      exact (insertOpt_perm h).trans ((ih hs).cons a)

theorem sortOpt_chain :
    ∀ {l s : List FP}, sortOpt l = some s → List.Chain' leP s := by
  intro l
  induction l with
  | nil =>
    intro s h
    simp only [sortOpt, List.foldr_nil, Option.some.injEq] at h
    exact h ▸ List.chain'_nil
  | cons a l ih =>
    intro s h
    rw [sortOpt_cons] at h
    rcases hs : sortOpt l with _ | s'
    · rw [hs] at h; exact absurd h (by simp)
    · rw [hs] at h
      simp only [Option.some_bind] at h
      exact insertOpt_chain (ih hs) h

theorem sortOpt_isSome {l : List FP} (h : FP.nan ∉ l) :
    ∃ s, sortOpt l = some s := by
  induction l with
  | nil => exact ⟨[], rfl⟩
  | cons a l ih =>
    have ha : a ≠ FP.nan := fun he => h (he ▸ List.mem_cons_self a l)
    obtain ⟨s', hs'⟩ := ih (fun hm => h (List.mem_cons_of_mem a hm))
    have hmem : ∀ x ∈ s', x ≠ FP.nan := fun x hx he =>
      h (List.mem_cons_of_mem a ((sortOpt_perm hs').mem_iff.mp (he ▸ hx)))
    obtain ⟨t, ht⟩ := insertOpt_isSome ha hmem
    exact ⟨t, by rw [sortOpt_cons, hs', Option.some_bind, ht]⟩

theorem sortOpt_nan :
    ∀ {l : List FP}, FP.nan ∈ l → 2 ≤ l.length → sortOpt l = none := by
  intro l
  induction l with
  | nil => intro h; exact absurd h (List.not_mem_nil _)
  | cons a l ih =>
    intro hmem hlen
    rw [sortOpt_cons]
    rcases hs : sortOpt l with _ | s
    · rfl
    · simp only [Option.some_bind]
      rcases List.mem_cons.mp hmem with rfl | hml
      · have hl : l ≠ [] := by
          intro he
          rw [he] at hlen
          exact absurd hlen (by decide)
        have hsne : s ≠ [] := fun he =>
          hl (List.length_eq_zero.mp (he ▸ (sortOpt_perm hs).length_eq).symm)
        rcases s with _ | ⟨b, rest⟩
        · exact absurd rfl hsne
        · simp [insertOpt, cmpF]
      · rcases hl2 : l.length with _ | n
        · rw [List.length_eq_zero.mp hl2] at hml
          exact absurd hml (List.not_mem_nil _)
        · cases n with
          | zero =>
            rcases l with _ | ⟨b, _ | _⟩
            · simp at hl2
            · rcases List.mem_singleton.mp hml with rfl
              simp only [sortOpt, List.foldr_cons, List.foldr_nil,
                Option.some_bind] at hs
              simp only [insertOpt, Option.some.injEq] at hs
              subst hs
              rcases ha : cmpF a FP.nan with _ | o
              · simp [insertOpt, ha]
              · exact absurd ha (by rw [cmpF_nan_right]; simp)
            · simp at hl2
          | succ n =>
            rw [ih hml (by omega)] at hs
            exact absurd hs (by simp)

instance instIsTransLeP : IsTrans FP leP := ⟨fun _ _ _ => leP_trans⟩

theorem divF_fin_ne {a b : ℚ} (hb : b ≠ 0) :
    divF (.fin a) (.fin b) = .fin (a / b) := by
  simp [divF, hb]

theorem divF_fin_zero_pos {a : ℚ} (ha : 0 < a) :
    divF (.fin a) (.fin 0) = .inf := by
  simp [divF, ha.ne', ha]

theorem ecdfY_length (s : List FP) : (ecdfY s).length = s.length := by
  simp [ecdfY]

theorem ecdfY_eq {s : List FP} (h : s.length ≠ 0) :
    ecdfY s = (List.range s.length).map
      fun (i : ℕ) => FP.fin (((i : ℚ) + 1) / (s.length : ℚ)) := by
  unfold ecdfY
  refine List.map_congr_left fun (i : ℕ) _ => ?_
  exact divF_fin_ne (by exact_mod_cast h)

theorem ecdfY_getLast {s : List FP} (h : s ≠ []) :
    (ecdfY s).getLast? = some (.fin 1) := by
  have hn : s.length ≠ 0 := fun he => h (List.length_eq_zero.mp he)
  rcases hl : s.length with _ | n
  · exact absurd hl hn
  · unfold ecdfY
    rw [hl, List.range_succ, List.map_append, List.map_cons, List.map_nil,
      List.getLast?_concat]
    have hcast : ((n + 1 : ℕ) : ℚ) = (n : ℚ) + 1 := by push_cast; ring
    rw [hcast, divF_fin_ne (by positivity)]
    rw [div_self (by positivity)]

theorem ecdfY_pairwise (s : List FP) : List.Pairwise leP (ecdfY s) := by
  unfold ecdfY
  refine List.Pairwise.map _ (fun i j hij => ?_) (List.pairwise_lt_range s.length)
  rcases Nat.eq_zero_or_pos s.length with h0 | hpos
  · rw [h0]
    rw [show ((0 : ℕ) : ℚ) = 0 from rfl]
    rw [divF_fin_zero_pos (by positivity), divF_fin_zero_pos (by positivity)]
    exact leP_inf_inf
  · have hn : (s.length : ℚ) ≠ 0 := by positivity
    rw [divF_fin_ne hn, divF_fin_ne hn, leP_fin_iff]
    have hle : (i : ℚ) + 1 ≤ (j : ℚ) + 1 := by
      exact_mod_cast Nat.succ_le_succ hij.le
    exact div_le_div_of_nonneg_right hle (by positivity)

theorem ecdf_eq {S x y : List FP} (h : ecdf S = some (x, y)) :
    sortOpt S = some x ∧ y = ecdfY x := by
  unfold ecdf at h
  rcases hs : sortOpt S with _ | s
  · rw [hs] at h; exact absurd h (by simp)
  · rw [hs] at h
    simp only [Option.map_some', Option.some.injEq, Prod.mk.injEq] at h
    obtain ⟨h1, h2⟩ := h
    subst h1
    exact ⟨rfl, h2.symm⟩

theorem ecdf_some {S : List FP} (h : FP.nan ∉ S) :
    ∃ x, ecdf S = some (x, ecdfY x) ∧ x.Perm S ∧ List.Chain' leP x := by
  obtain ⟨s, hs⟩ := sortOpt_isSome h
  exact ⟨s, by simp [ecdf, hs], sortOpt_perm hs, sortOpt_chain hs⟩

theorem position_none {p : FP → Bool} :
    ∀ {l : List FP}, (∀ v ∈ l, p v = false) → position p l = none := by
  intro l
  induction l with
  | nil => intro _; rfl
  | cons a l ih =>
    intro h
    simp [position, h a (List.mem_cons_self a l),
      ih fun v hv => h v (List.mem_cons_of_mem a hv)]

theorem position_some_lt {p : FP → Bool} :
    ∀ {l : List FP} {i : Nat}, position p l = some i → i < l.length := by
  intro l
  induction l with
  | nil => intro i h; exact absurd h (by simp [position])
  | cons a l ih =>
    intro i h
    simp only [position] at h
    by_cases hp : p a
    · rw [if_pos hp] at h
      simp only [Option.some.injEq] at h
      subst h
      simp
    · rw [if_neg hp] at h
      rcases ho : position p l with _ | j
      · rw [ho] at h; exact absurd h (by simp)
      · rw [ho] at h
        simp only [Option.map_some', Option.some.injEq] at h
        have := ih ho
        simp only [List.length_cons]
        omega

theorem position_eq_of {p : FP → Bool} :
    ∀ {l : List FP} {i : Nat} (hi : i < l.length),
      p (l.get ⟨i, hi⟩) = true →
      (∀ j (hj : j < l.length), j < i → p (l.get ⟨j, hj⟩) = false) →
      position p l = some i := by
  intro l
  induction l with
  | nil => intro i hi; simp at hi
  | cons a l ih =>
    intro i hi hp hprev
    cases i with
    | zero =>
      rw [show (a :: l).get ⟨0, hi⟩ = a from rfl] at hp
      simp [position, hp]
    | succ i =>
      have ha : p a = false := hprev 0 (by simp) (Nat.succ_pos i)
      simp only [position, ha, Bool.false_eq_true, if_false]
      rw [ih (by simpa using hi) (by simpa using hp)
        (fun j hj hji => by simpa using hprev (j + 1) (by simpa using hj) (by omega))]
      rfl

theorem mapOpt_pointwise {f : FP → Option FP} :
    ∀ {qs ys : List FP}, qs.length = ys.length →
      (∀ k (hk : k < qs.length) (hk' : k < ys.length),
        f (qs.get ⟨k, hk⟩) = some (ys.get ⟨k, hk'⟩)) →
      mapOpt f qs = some ys := by
  intro qs
  induction qs with
  | nil =>
    intro ys h _
    cases ys with
    | nil => rfl
    | cons y ys => simp at h
  | cons q qs ih =>
    intro ys hlen hpt
    cases ys with
    | nil => simp at hlen
    | cons y ys =>
      have h0 : f q = some y := by simpa using hpt 0 (by simp) (by simp)
      simp only [mapOpt, h0]
      rw [ih (by simpa using hlen)
        (fun k hk hk' => by simpa using hpt (k + 1) (by simpa using hk) (by simpa using hk'))]
      rfl

theorem mapOpt_isSome {f : FP → Option FP} :
    ∀ {qs : List FP}, (∀ q ∈ qs, ∃ v, f q = some v) →
      ∃ r, mapOpt f qs = some r := by
  intro qs
  induction qs with
  | nil => exact fun _ => ⟨[], rfl⟩
  | cons q qs ih =>
    intro h
    obtain ⟨v, hv⟩ := h q (List.mem_cons_self q qs)
    obtain ⟨r, hr⟩ := ih fun a ha => h a (List.mem_cons_of_mem q ha)
    exact ⟨v :: r, by simp [mapOpt, hv, hr]⟩

theorem interpOne_isSome {x y : List FP} (hx : x ≠ [])
    (hlen : y.length = x.length) (q : FP) :
    ∃ v, interpOne x y q = some v := by
  unfold interpOne
  rcases hp : position (fun xv => geB xv q) x with _ | i
  · have hxl : x.length ≠ 0 := fun h => hx (List.length_eq_zero.mp h)
    rw [if_neg hxl]
    have hlt : x.length - 1 < y.length := by omega
    exact ⟨_, List.get?_eq_get hlt⟩
  · have hi := position_some_lt hp
    have hlt : i < y.length := by omega
    exact ⟨_, List.get?_eq_get hlt⟩

theorem interpolate_isSome {x y : List FP} (hx : x ≠ [])
    (hlen : y.length = x.length) (qs : List FP) :
    ∃ r, interpolate_ecdf x y qs = some r :=
  mapOpt_isSome fun q _ => interpOne_isSome hx hlen q

theorem partitionTD_mem_left {scores : List FP} {labels : List Int} {v : FP}
    (h : v ∈ (partitionTD scores labels).1) : v ∈ scores := by
  simp only [partitionTD, List.mem_filterMap] at h
  obtain ⟨⟨a, b⟩, hab, heq⟩ := h
  by_cases hb : b = 1
  · rw [if_pos hb] at heq
    simp only [Option.some.injEq] at heq
    exact heq ▸ (List.of_mem_zip hab).1
  · rw [if_neg hb] at heq
    exact absurd heq (by simp)

theorem partitionTD_mem_right {scores : List FP} {labels : List Int} {v : FP}
    (h : v ∈ (partitionTD scores labels).2) : v ∈ scores := by
  simp only [partitionTD, List.mem_filterMap] at h
  obtain ⟨⟨a, b⟩, hab, heq⟩ := h
  by_cases hb : b = 1
  · rw [if_pos hb] at heq
    exact absurd heq (by simp)
  · rw [if_neg hb] at heq
    simp only [Option.some.injEq] at heq
    exact heq ▸ (List.of_mem_zip hab).1

theorem ppStage2_some (x_target y_target x_decoy y_decoy : List FP) (pi0 : FP)
    (title : String) (hxt : x_target ≠ []) (hxd : x_decoy ≠ [])
    (hyt : y_target.length = x_target.length)
    (hyd : y_decoy.length = x_decoy.length) :
    ∃ yti ydi : List FP,
      ppStage2 x_target y_target x_decoy y_decoy pi0 title =
        some (Except.ok
          { traces :=
              [{ traceType := "scatter", x := ydi, y := yti,
                 mode := some .markers, name := "Target vs Decoy ECDF" },
               { traceType := "scatter", x := [.fin 0, .fin 1],
                 y := [.fin 0, .fin 1], mode := some .lines,
                 name := "y = x (Perfect match)", lineColor := some "red",
                 lineDash := some "dash" },
               { traceType := "scatter", x := ydi,
                 y := ydi.map (fun v => mulF pi0 v), mode := some .lines,
                 name := "Estimated π₀ = " ++ fmt3 pi0,
                 lineColor := some "blue", lineDash := some "dot" }],
            layout := { title := title, xTitle := "Decoy ECDF",
                        yTitle := "Target ECDF" } }) := by
  obtain ⟨tf, htf⟩ : ∃ v, x_target.head? = some v := by
    cases x_target with
    | nil => exact absurd rfl hxt
    | cons a l => exact ⟨a, rfl⟩
  obtain ⟨df, hdf⟩ : ∃ v, x_decoy.head? = some v := by
    cases x_decoy with
    | nil => exact absurd rfl hxd
    | cons a l => exact ⟨a, rfl⟩
  have htl := List.getLast?_eq_getLast_of_ne_nil hxt
  have hdl := List.getLast?_eq_getLast_of_ne_nil hxd
  obtain ⟨yti, hyti⟩ := interpolate_isSome hxt hyt
    (linspaceF (minF tf df) (maxF (x_target.getLast hxt) (x_decoy.getLast hxd)) 1000)
  obtain ⟨ydi, hydi⟩ := interpolate_isSome hxd hyd
    (linspaceF (minF tf df) (maxF (x_target.getLast hxt) (x_decoy.getLast hxd)) 1000)
  refine ⟨yti, ydi, ?_⟩
  unfold ppStage2
  rw [htf, hdf, htl, hdl]
  dsimp only
  rw [hyti, hydi]

theorem interpolate_singleton (x y : List FP) (q : FP) :
    interpolate_ecdf x y [q] = (interpOne x y q).map (fun v => [v]) := by
  unfold interpolate_ecdf
  rcases h : interpOne x y q with _ | v
  · simp [mapOpt, h]
  · simp [mapOpt, h]

theorem interpolate_self {x y : List FP} (hx : List.Pairwise ltP x)
    (hnan : ∀ v ∈ x, v ≠ FP.nan) (hlen : y.length = x.length) :
    interpolate_ecdf x y x = some y := by
  unfold interpolate_ecdf
  refine mapOpt_pointwise hlen.symm ?_
  intro k hk hk'
  have hpos : position (fun xv => geB xv (x.get ⟨k, hk⟩)) x = some k := by
    refine position_eq_of hk ?_ ?_
    · exact geB_self (hnan _ (x.get_mem k hk))
    · intro j hj hji
      refine geB_false_of_ltP ?_
      exact List.pairwise_iff_get.mp hx ⟨j, hj⟩ ⟨k, hk⟩ hji
  unfold interpOne
  rw [hpos]
  exact List.get?_eq_get hk'

/-- Claim C6: for every sample with at least one element and no NaN (a NaN
makes the sort panic, the subject of claim C10), `ecdf` returns two
sequences of the sample's length: the x-values are the sample sorted
ascending (a permutation, pairwise ordered), the y-values are `(i+1)/n`
for the i-th smallest element (0-based `i`), the y-values are
non-decreasing, and the final y-value is exactly 1. -/
theorem claim_C6 (S : List FP) (h1 : S ≠ []) (h2 : FP.nan ∉ S) :
    ∃ x y : List FP, ecdf S = some (x, y) ∧
      x.length = S.length ∧ y.length = S.length ∧
      x.Perm S ∧ List.Pairwise leP x ∧
      y = (List.range S.length).map
        (fun (i : ℕ) => FP.fin (((i : ℚ) + 1) / (S.length : ℚ))) ∧
      List.Pairwise leP y ∧
      y.getLast? = some (.fin 1) := by
  obtain ⟨x, hx_eq, hx_perm, hx_chain⟩ := ecdf_some h2
  have hxlen : x.length = S.length := hx_perm.length_eq
  have hSlen : S.length ≠ 0 := fun he => h1 (List.length_eq_zero.mp he)
  have hxne : x ≠ [] := fun he => by
    rw [he, List.length_nil] at hxlen
    exact hSlen hxlen.symm
  refine ⟨x, ecdfY x, hx_eq, hxlen, ?_, hx_perm,
    List.chain'_iff_pairwise.mp hx_chain, ?_, ecdfY_pairwise x,
    ecdfY_getLast hxne⟩
  · rw [ecdfY_length, hxlen]
  · rw [ecdfY_eq (by rw [hxlen]; exact hSlen), hxlen]

/-- Witness for claim C6 at the concrete sample `[2, 1]`. -/
theorem claim_C6_witness :
    ∃ x y : List FP, ecdf [FP.fin 2, FP.fin 1] = some (x, y) ∧
      x.length = [FP.fin 2, FP.fin 1].length ∧
      y.length = [FP.fin 2, FP.fin 1].length ∧
      x.Perm [FP.fin 2, FP.fin 1] ∧ List.Pairwise leP x ∧
      y = (List.range [FP.fin 2, FP.fin 1].length).map
        (fun (i : ℕ) =>
          FP.fin (((i : ℚ) + 1) / (([FP.fin 2, FP.fin 1].length : ℕ) : ℚ))) ∧
      List.Pairwise leP y ∧
      y.getLast? = some (.fin 1) :=
  claim_C6 [FP.fin 2, FP.fin 1] (by decide) (by decide)

/-- Claim C3 (amended): on a non-empty NaN-free sample with pairwise
distinct values, interpolating the sample's own ECDF at its own sorted
x-values reproduces the ECDF's y-values exactly.  (With tied values the
round trip fails, see the counterexample.) -/
theorem claim_C3 (S : List FP) (h1 : S ≠ []) (h2 : FP.nan ∉ S)
    (h3 : S.Nodup) :
    ∃ x y : List FP, ecdf S = some (x, y) ∧
      interpolate_ecdf x y x = some y := by
  obtain ⟨x, hx_eq, hx_perm, hx_chain⟩ := ecdf_some h2
  have hnanx : ∀ v ∈ x, v ≠ FP.nan := fun v hv he =>
    h2 (hx_perm.mem_iff.mp (he ▸ hv))
  have hnodup : x.Nodup := hx_perm.nodup_iff.mpr h3
  have hpair : List.Pairwise ltP x :=
    ((List.chain'_iff_pairwise.mp hx_chain).and hnodup).imp
      fun hab => ltP_of_leP_ne hab.1 hab.2
  exact ⟨x, ecdfY x, hx_eq, interpolate_self hpair hnanx (ecdfY_length x)⟩

/-- Counterexample to claim C3 as stated: with the tied sample `[1, 1]`
the ECDF is `x = [1, 1]`, `y = [1/2, 1]`, but interpolating at `[1, 1]`
returns `[1/2, 1/2]` (both queries hit the first tied x-value), not `y`. -/
theorem claim_C3_cex :
    ecdf [FP.fin 1, FP.fin 1] =
      some ([FP.fin 1, FP.fin 1], ecdfY [FP.fin 1, FP.fin 1]) ∧
    interpolate_ecdf [FP.fin 1, FP.fin 1] (ecdfY [FP.fin 1, FP.fin 1])
        [FP.fin 1, FP.fin 1] ≠
      some (ecdfY [FP.fin 1, FP.fin 1]) := by
  have hcmp : cmpF (FP.fin 1) (FP.fin 1) = some .eq := cmpF_self (by simp)
  have hsort : sortOpt [FP.fin 1, FP.fin 1] = some [FP.fin 1, FP.fin 1] := by
    simp [sortOpt, insertOpt, hcmp]
  refine ⟨by simp [ecdf, hsort], ?_⟩
  have hy : ecdfY [FP.fin 1, FP.fin 1] =
      [divF (.fin 1) (.fin 2), divF (.fin 2) (.fin 2)] := by
    norm_num [ecdfY, List.range_succ]
  have hgeB : geB (FP.fin 1) (FP.fin 1) = true := geB_self (by simp)
  have hpos : position (fun xv => geB xv (FP.fin 1)) [FP.fin 1, FP.fin 1] =
      some 0 := by
    simp [position, hgeB]
  have hinterp : interpolate_ecdf [FP.fin 1, FP.fin 1]
      (ecdfY [FP.fin 1, FP.fin 1]) [FP.fin 1, FP.fin 1] =
      some [divF (.fin 1) (.fin 2), divF (.fin 1) (.fin 2)] := by
    simp [interpolate_ecdf, mapOpt, interpOne, hpos, hy]
  rw [hinterp, hy]
  intro hcon
  rw [divF_fin_ne (by norm_num), divF_fin_ne (by norm_num)] at hcon
  simp only [Option.some.injEq, List.cons.injEq, FP.fin.injEq] at hcon
  have := hcon.2.1
  norm_num at this

/-- Witness for claim C3 at the concrete sample `[2, 1]`. -/
theorem claim_C3_witness :
    ∃ x y : List FP, ecdf [FP.fin 2, FP.fin 1] = some (x, y) ∧
      interpolate_ecdf x y x = some y :=
  claim_C3 [FP.fin 2, FP.fin 1] (by decide) (by decide) (by decide)

/-- Claim C7: for a non-empty ECDF `(x, y)` and any query `q`, the
interpolator returns the y-value at the first x-value that is `>= q`
(part 1); a query at or below the minimum returns the first y-value
(part 2); when no x-value is `>= q` it returns the last y-value (part 3),
which equals exactly 1 when `(x, y)` was produced by `ecdf` (part 4). -/
theorem claim_C7 (x y : List FP) (q : FP) (hx : x ≠ [])
    (hlen : x.length = y.length) :
    (∀ i (hi : i < x.length) (hi' : i < y.length),
      geB (x.get ⟨i, hi⟩) q = true →
      (∀ j (hj : j < x.length), j < i → geB (x.get ⟨j, hj⟩) q = false) →
      interpolate_ecdf x y [q] = some [y.get ⟨i, hi'⟩]) ∧
    (∀ v, x.head? = some v → geB v q = true →
      ∃ w, y.head? = some w ∧ interpolate_ecdf x y [q] = some [w]) ∧
    ((∀ v ∈ x, geB v q = false) →
      ∃ w, y.getLast? = some w ∧ interpolate_ecdf x y [q] = some [w]) ∧
    (∀ S : List FP, FP.nan ∉ S → ecdf S = some (x, y) →
      (∀ v ∈ x, geB v q = false) →
      interpolate_ecdf x y [q] = some [.fin 1]) := by
  have hxlen0 : x.length ≠ 0 := fun he => hx (List.length_eq_zero.mp he)
  have hylen0 : y.length ≠ 0 := fun he => hxlen0 (hlen.trans he)
  have part1 : ∀ i (hi : i < x.length) (hi' : i < y.length),
      geB (x.get ⟨i, hi⟩) q = true →
      (∀ j (hj : j < x.length), j < i → geB (x.get ⟨j, hj⟩) q = false) →
      interpolate_ecdf x y [q] = some [y.get ⟨i, hi'⟩] := by
    intro i hi hi' hgeb hprev
    rw [interpolate_singleton]
    unfold interpOne
    rw [position_eq_of hi hgeb (fun j hj hji => hprev j hj hji)]
    show Option.map (fun v => [v]) (y.get? i) = some [y.get ⟨i, hi'⟩]
    rw [List.get?_eq_get hi']
    rfl
  have part3 : (∀ v ∈ x, geB v q = false) →
      ∃ w, y.getLast? = some w ∧ interpolate_ecdf x y [q] = some [w] := by
    intro hall
    have hyl : y.length - 1 < y.length := by omega
    refine ⟨y.get ⟨y.length - 1, hyl⟩, ?_, ?_⟩
    · rw [List.getLast?_eq_getElem?]
      exact List.getElem?_eq_getElem hyl
    · rw [interpolate_singleton]
      unfold interpOne
      rw [position_none hall, if_neg hxlen0, hlen]
      rw [List.get?_eq_get hyl]
      rfl
  refine ⟨part1, ?_, part3, ?_⟩
  · intro v hv hgeb
    have h0x : 0 < x.length := by omega
    have h0y : 0 < y.length := by omega
    have hvget : x.get ⟨0, h0x⟩ = v := by
      cases x with
      | nil => exact absurd rfl hx
      | cons a l =>
        simp only [List.head?_cons, Option.some.injEq] at hv
        exact hv
    refine ⟨y.get ⟨0, h0y⟩, ?_, ?_⟩
    · cases y with
      | nil => simp at h0y
      | cons b m => rfl
    · exact part1 0 h0x h0y (hvget ▸ hgeb) (fun j hj hj0 => absurd hj0 (by omega))
  · intro S hSnan hecdf hall
    obtain ⟨hsort, hyeq⟩ := ecdf_eq hecdf
    obtain ⟨w, hw1, hw2⟩ := part3 hall
    rw [hyeq, ecdfY_getLast hx] at hw1
    simp only [Option.some.injEq] at hw1
    rw [hw1]
    exact hw2

/-- Witness for claim C7 at `x = [0, 2]`, `y = [1/2, 1]`, query `1`: the
first x-value `>= 1` is `2` at index 1, so the result is `y[1]`. -/
theorem claim_C7_witness :
    interpolate_ecdf [FP.fin 0, FP.fin 2] [FP.fin (1 / 2), FP.fin 1]
      [FP.fin 1] = some [FP.fin 1] :=
  (claim_C7 [FP.fin 0, FP.fin 2] [FP.fin (1 / 2), FP.fin 1] (FP.fin 1)
    (by decide) (by decide)).1 1 (by decide) (by decide) (by decide)
    (fun j hj hj1 => by
      have hj0 : j = 0 := by omega
      subst hj0
      show geB (FP.fin 0) (FP.fin 1) = false
      decide)

/-- Claim C4 (amended): `estimate_pi0` returns the plain f64 quotient
(count of decoy labels) / (count of target labels).  With at least one
target label this is the finite ratio; with zero targets it silently
returns `+inf` (or NaN when there are also zero decoys) — the function has
no error path, so no `EmptySample` error is ever produced. -/
theorem claim_C4 (labels : List Int) :
    (0 < countTargets labels →
      estimate_pi0 labels =
        .fin ((countDecoys labels : ℚ) / (countTargets labels : ℚ))) ∧
    (countTargets labels = 0 → 0 < countDecoys labels →
      estimate_pi0 labels = .inf) ∧
    (countTargets labels = 0 → countDecoys labels = 0 →
      estimate_pi0 labels = .nan) := by
  refine ⟨fun h => ?_, fun h0 hd => ?_, fun h0 hd0 => ?_⟩
  · unfold estimate_pi0
    exact divF_fin_ne (by positivity)
  · unfold estimate_pi0
    rw [h0]
    rw [show ((0 : ℕ) : ℚ) = 0 from rfl]
    exact divF_fin_zero_pos (by exact_mod_cast hd)
  · unfold estimate_pi0
    rw [h0, hd0]
    simp [divF]

/-- Counterexample to claim C4 as stated: with three decoy labels and zero
target labels, `estimate_pi0` evaluates to `+inf` — an ordinary return
value, not an `EmptySample` error (its return type has no error case). -/
theorem claim_C4_cex :
    estimate_pi0 [(-1 : Int), -1, -1] = FP.inf := by
  decide

/-- Witness for claim C4 at 5 target plus 10 decoy labels: the result is
the finite ratio 10/5 (= 2). -/
theorem claim_C4_witness :
    0 < countTargets
      [1, 1, 1, 1, 1, -1, -1, -1, -1, -1, -1, -1, -1, -1, -1] ∧
    estimate_pi0 [1, 1, 1, 1, 1, -1, -1, -1, -1, -1, -1, -1, -1, -1, -1] =
      .fin ((countDecoys
          [1, 1, 1, 1, 1, -1, -1, -1, -1, -1, -1, -1, -1, -1, -1] : ℚ) /
        (countTargets
          [1, 1, 1, 1, 1, -1, -1, -1, -1, -1, -1, -1, -1, -1, -1] : ℚ)) :=
  ⟨by decide,
    (claim_C4 [1, 1, 1, 1, 1, -1, -1, -1, -1, -1, -1, -1, -1, -1, -1]).1
      (by decide)⟩

/-- Claim C2 is false of the code: `plot_scatter` computes the threshold
variable `web_gl_mode = x[0].len() > 10_000` but never uses it — every
trace is built with `.web_gl_mode(true)`.  At a 1-point first series
(≤ 10000 points) the resulting trace is still flagged for WebGL, where the
claim requires it not to be. -/
theorem claim_C2 :
    (∃ p : PlotSpec,
      plot_scatter [[FP.fin 0]] [[FP.fin 0]] ["a"] "t" "xt" "yt" =
        some (Except.ok p) ∧
      p.traces.map PlotTrace.webGlMode = [true]) ∧
    [FP.fin 0].length ≤ 10000 := by
  exact ⟨⟨_, rfl, rfl⟩, by decide⟩

theorem scatterTraces_none {labels : List String} :
    ∀ (ps : List (List FP × List FP)) (i : Nat),
      i ≤ labels.length → labels.length < i + ps.length →
      scatterTraces labels ps i = none := by
  intro ps
  induction ps with
  | nil =>
    intro i h1 h2
    simp only [List.length_nil, Nat.add_zero] at h2
    omega
  | cons p rest ih =>
    intro i h1 h2
    by_cases hi : i = labels.length
    · have hn : labels.get? i = none := List.get?_eq_none.mpr (by omega)
      rw [List.get?_eq_getElem?] at hn
      simp [scatterTraces, hn]
    · have hlt : i < labels.length := by omega
      obtain ⟨nm, hnm⟩ : ∃ nm, labels.get? i = some nm :=
        ⟨_, List.get?_eq_get hlt⟩
      simp only [scatterTraces]
      rw [hnm, ih (i + 1) (by omega)
        (by simp only [List.length_cons] at h2; omega)]
      rfl

theorem scatterTraces_some {labels : List String} :
    ∀ (ps : List (List FP × List FP)) (i : Nat),
      i + ps.length ≤ labels.length →
      ∃ ts, scatterTraces labels ps i = some ts := by
  intro ps
  induction ps with
  | nil => exact fun i _ => ⟨[], rfl⟩
  | cons p rest ih =>
    intro i h
    have hlt : i < labels.length := by
      simp only [List.length_cons] at h
      omega
    obtain ⟨nm, hnm⟩ : ∃ nm, labels.get? i = some nm :=
      ⟨_, List.get?_eq_get hlt⟩
    rw [List.get?_eq_getElem?] at hnm
    obtain ⟨ts, hts⟩ := ih (i + 1)
      (by simp only [List.length_cons] at h; omega)
    refine ⟨{ traceType := "scatter", x := p.1, y := p.2, name := nm,
              mode := some .markers, markerSize := some 10,
              webGlMode := true } :: ts, ?_⟩
    simp [scatterTraces, hnm, hts]

/-- Claim C9: `plot_scatter` panics (returns no value) when the x-series
collection is empty (part 1: `x[0]` is out of bounds) and when the labels
sequence is shorter than the series count even with matching x/y counts
(part 2: `labels[i]` is out of bounds); labels length is never validated —
with at least as many labels as series the call succeeds (part 3). -/
theorem claim_C9 :
    (∀ (labels : List String) (t xt yt : String),
      plot_scatter [] [] labels t xt yt = none) ∧
    (∀ (x y : List (List FP)) (labels : List String) (t xt yt : String),
      x.length = y.length → labels.length < x.length →
      plot_scatter x y labels t xt yt = none) ∧
    (∀ (x y : List (List FP)) (labels : List String) (t xt yt : String),
      x ≠ [] → x.length = y.length → x.length ≤ labels.length →
      ∃ p : PlotSpec,
        plot_scatter x y labels t xt yt = some (Except.ok p)) := by
  have hzip : ∀ (x y : List (List FP)), x.length = y.length →
      (x.zip y).length = x.length := by
    intro x y h
    rw [List.length_zip, h, Nat.min_self]
  refine ⟨fun labels t xt yt => rfl, ?_, ?_⟩
  · intro x y labels t xt yt hxy hlab
    have hxne : x ≠ [] := by
      intro he
      rw [he] at hlab
      simp at hlab
    obtain ⟨x0, xs, rfl⟩ : ∃ x0 xs, x = x0 :: xs := by
      cases x with
      | nil => exact absurd rfl hxne
      | cons a l => exact ⟨a, l, rfl⟩
    unfold plot_scatter
    rw [if_neg (not_ne_iff.mpr hxy)]
    show ((scatterTraces labels ((x0 :: xs).zip y) 0).map _) = none
    rw [scatterTraces_none ((x0 :: xs).zip y) 0 (by omega)
      (by rw [hzip _ _ hxy]; omega)]
    rfl
  · intro x y labels t xt yt hxne hxy hlab
    obtain ⟨x0, xs, rfl⟩ : ∃ x0 xs, x = x0 :: xs := by
      cases x with
      | nil => exact absurd rfl hxne
      | cons a l => exact ⟨a, l, rfl⟩
    unfold plot_scatter
    rw [if_neg (not_ne_iff.mpr hxy)]
    obtain ⟨ts, hts⟩ := @scatterTraces_some labels ((x0 :: xs).zip y) 0
      (by rw [hzip _ _ hxy]; omega)
    show (∃ p, ((scatterTraces labels ((x0 :: xs).zip y) 0).map _) =
      some (Except.ok p))
    rw [hts]
    exact ⟨_, rfl⟩

/-- Witness for claim C9: one series but an empty labels list panics. -/
theorem claim_C9_witness :
    plot_scatter [[FP.fin 0]] [[FP.fin 0]] [] "t" "x" "y" = none :=
  claim_C9.2.1 [[FP.fin 0]] [[FP.fin 0]] [] "t" "x" "y" rfl (by decide)

/-- Claim C10 (amended): the ECDF sort panics on a NaN comparison, which
happens exactly when the sample holds a NaN *and at least one other
element* (a 1-element slice is never compared, see the counterexample).
Consequently `plot_pp` panics whenever the target (or decoy) class of the
partition contains a NaN alongside a second element of that class. -/
theorem claim_C10 :
    (∀ S : List FP, FP.nan ∈ S → 2 ≤ S.length → ecdf S = none) ∧
    (∀ (scores : List FP) (labels : List Int) (title : String),
      FP.nan ∈ (partitionTD scores labels).1 →
      2 ≤ (partitionTD scores labels).1.length →
      plot_pp scores labels title = none) ∧
    (∀ (scores : List FP) (labels : List Int) (title : String),
      FP.nan ∈ (partitionTD scores labels).2 →
      2 ≤ (partitionTD scores labels).2.length →
      plot_pp scores labels title = none) := by
  have hecdf : ∀ S : List FP, FP.nan ∈ S → 2 ≤ S.length → ecdf S = none := by
    intro S hm hl
    unfold ecdf
    rw [sortOpt_nan hm hl]
    rfl
  refine ⟨hecdf, ?_, ?_⟩
  · intro scores labels title hm hl
    unfold plot_pp
    by_cases h1 : scores.length ≠ labels.length
    · rw [if_pos h1]
    · rw [if_neg h1]
      by_cases h2 : ∃ v ∈ labels, ¬(v = 1 ∨ v = -1)
      · rw [if_pos h2]
      · rw [if_neg h2, hecdf _ hm hl]
  · intro scores labels title hm hl
    unfold plot_pp
    by_cases h1 : scores.length ≠ labels.length
    · rw [if_pos h1]
    · rw [if_neg h1]
      by_cases h2 : ∃ v ∈ labels, ¬(v = 1 ∨ v = -1)
      · rw [if_pos h2]
      · rw [if_neg h2, hecdf _ hm hl]
        rcases ht : ecdf (partitionTD scores labels).1 with _ | tp
        · rfl
        · rfl

/-- Counterexample to claim C10 as stated: a sample consisting of a single
NaN is sorted without any comparison, so `ecdf` does *not* panic — it
returns a value. -/
theorem claim_C10_cex : ecdf [FP.nan] ≠ none := by
  decide

/-- Witness for claim C10: a NaN next to a second element panics. -/
theorem claim_C10_witness : ecdf [FP.nan, FP.fin 0] = none :=
  claim_C10.1 [FP.nan, FP.fin 0] (by decide) (by decide)

theorem ppStage2_ok {xt yt xd yd : List FP} {pi0 : FP} {title : String}
    {r : Except String PlotSpec}
    (h : ppStage2 xt yt xd yd pi0 title = some r) : ∃ p, r = Except.ok p := by
  unfold ppStage2 at h
  split at h
  · dsimp only at h
    split at h
    · simp only [Option.some.injEq] at h
      exact ⟨_, h.symm⟩
    · exact absurd h (by simp)
  · exact absurd h (by simp)

theorem ppStage2_none_empty {xt yt xd yd : List FP} {pi0 : FP}
    {title : String} (h : xt = [] ∨ xd = []) :
    ppStage2 xt yt xd yd pi0 title = none := by
  rcases h with rfl | rfl
  · rfl
  · unfold ppStage2
    rcases h1 : xt.head? with _ | v
    · rfl
    · rfl

theorem plot_pp_ok {scores : List FP} {labels : List Int} {title : String}
    {r : Except String PlotSpec} (h : plot_pp scores labels title = some r) :
    ∃ p, r = Except.ok p := by
  unfold plot_pp at h
  split at h
  · exact absurd h (by simp)
  · split at h
    · exact absurd h (by simp)
    · split at h
      · exact ppStage2_ok h
      · exact absurd h (by simp)

theorem plot_score_histogram_ok {scores : List FP} {labels : List Int}
    {t xt : String} {r : Except String PlotSpec}
    (h : plot_score_histogram scores labels t xt = some r) :
    ∃ p, r = Except.ok p := by
  unfold plot_score_histogram at h
  split at h
  · exact absurd h (by simp)
  · split at h
    · exact absurd h (by simp)
    · simp only [Option.some.injEq] at h
      exact ⟨_, h.symm⟩

theorem plot_boxplot_ok {scores : List (List FP)} {filenames : List String}
    {t xt yt : String} {r : Except String PlotSpec}
    (h : plot_boxplot scores filenames t xt yt = some r) :
    ∃ p, r = Except.ok p := by
  unfold plot_boxplot at h
  split at h
  · exact absurd h (by simp)
  · rcases hb : boxTraces filenames scores 0 with _ | ts
    · rw [hb] at h
      exact absurd h (by simp)
    · rw [hb] at h
      simp only [Option.map_some', Option.some.injEq] at h
      exact ⟨_, h.symm⟩

theorem plot_scatter_ok {x y : List (List FP)} {labels : List String}
    {t xt yt : String} {r : Except String PlotSpec}
    (h : plot_scatter x y labels t xt yt = some r) : ∃ p, r = Except.ok p := by
  unfold plot_scatter at h
  split at h
  · exact absurd h (by simp)
  · split at h
    · exact absurd h (by simp)
    · rcases hs : scatterTraces labels (x.zip y) 0 with _ | ts
      · rw [hs] at h
        exact absurd h (by simp)
      · rw [hs] at h
        simp only [Option.map_some', Option.some.injEq] at h
        exact ⟨_, h.symm⟩

/-- Claim C1 (amended): on each documented contract violation — mismatched
parallel lengths, a label outside `{1, -1}`, an empty class required by the
PP-plot — every builder *panics* (`assert!`/`unwrap`/indexing, modelled by
`none`) instead of returning a structured error; and no builder ever
returns the `Err` branch of its `Result` type (every produced value is
`Ok`). -/
theorem claim_C1 :
    (∀ (s : List FP) (l : List Int) (t xt : String), s.length ≠ l.length →
      plot_score_histogram s l t xt = none) ∧
    (∀ (s : List FP) (l : List Int) (t xt : String),
      (∃ v ∈ l, ¬(v = 1 ∨ v = -1)) → plot_score_histogram s l t xt = none) ∧
    (∀ (s : List FP) (l : List Int) (t : String), s.length ≠ l.length →
      plot_pp s l t = none) ∧
    (∀ (s : List FP) (l : List Int) (t : String),
      (∃ v ∈ l, ¬(v = 1 ∨ v = -1)) → plot_pp s l t = none) ∧
    (∀ (s : List FP) (l : List Int) (t : String),
      (partitionTD s l).1 = [] ∨ (partitionTD s l).2 = [] →
      plot_pp s l t = none) ∧
    (∀ (sc : List (List FP)) (fn : List String) (t xt yt : String),
      sc.length ≠ fn.length → plot_boxplot sc fn t xt yt = none) ∧
    (∀ (x y : List (List FP)) (lb : List String) (t xt yt : String),
      x.length ≠ y.length → plot_scatter x y lb t xt yt = none) ∧
    (∀ (s : List FP) (l : List Int) (t xt : String) r,
      plot_score_histogram s l t xt = some r → ∃ p, r = Except.ok p) ∧
    (∀ (s : List FP) (l : List Int) (t : String) r,
      plot_pp s l t = some r → ∃ p, r = Except.ok p) ∧
    (∀ (sc : List (List FP)) (fn : List String) (t xt yt : String) r,
      plot_boxplot sc fn t xt yt = some r → ∃ p, r = Except.ok p) ∧
    (∀ (x y : List (List FP)) (lb : List String) (t xt yt : String) r,
      plot_scatter x y lb t xt yt = some r → ∃ p, r = Except.ok p) := by
  refine ⟨?_, ?_, ?_, ?_, ?_, ?_, ?_,
    fun _ _ _ _ _ h => plot_score_histogram_ok h,
    fun _ _ _ _ h => plot_pp_ok h,
    fun _ _ _ _ _ _ h => plot_boxplot_ok h,
    fun _ _ _ _ _ _ _ h => plot_scatter_ok h⟩
  · intro s l t xt h
    unfold plot_score_histogram
    rw [if_pos h]
  · intro s l t xt h
    unfold plot_score_histogram
    by_cases h1 : s.length ≠ l.length
    · rw [if_pos h1]
    · rw [if_neg h1, if_pos h]
  · intro s l t h
    unfold plot_pp
    rw [if_pos h]
  · intro s l t h
    unfold plot_pp
    by_cases h1 : s.length ≠ l.length
    · rw [if_pos h1]
    · rw [if_neg h1, if_pos h]
  · intro s l t h
    unfold plot_pp
    by_cases h1 : s.length ≠ l.length
    · rw [if_pos h1]
    · rw [if_neg h1]
      by_cases h2 : ∃ v ∈ l, ¬(v = 1 ∨ v = -1)
      · rw [if_pos h2]
      · rw [if_neg h2]
        rcases ht : ecdf (partitionTD s l).1 with _ | tp
        · rfl
        · rcases hd : ecdf (partitionTD s l).2 with _ | dp
          · rfl
          · rcases h with hT | hD
            · rw [hT] at ht
              rw [show ecdf ([] : List FP) = some ([], ecdfY []) from rfl] at ht
              simp only [Option.some.injEq] at ht
              apply ppStage2_none_empty
              left
              rw [← ht]
            · rw [hD] at hd
              rw [show ecdf ([] : List FP) = some ([], ecdfY []) from rfl] at hd
              simp only [Option.some.injEq] at hd
              apply ppStage2_none_empty
              right
              rw [← hd]
  · intro sc fn t xt yt h
    unfold plot_boxplot
    rw [if_pos h]
  · intro x y lb t xt yt h
    unfold plot_scatter
    rw [if_pos h]

/-- Counterexample to claim C1 as stated: a length mismatch makes
`plot_score_histogram` panic (`assert_eq!`), modelled by `none` — no
structured error value is returned to the caller. -/
theorem claim_C1_cex :
    plot_score_histogram [FP.fin 1] [] "t" "x" = none := rfl

/-- Witness for claim C1: `plot_pp` panics on a length mismatch. -/
theorem claim_C1_witness : plot_pp [FP.fin 1] [] "t" = none :=
  claim_C1.2.2.1 [FP.fin 1] [] "t" (by decide)

/-- Claim C5: on a valid PP-plot input (equal lengths, labels in
`{1, -1}`, both partition classes non-empty, no NaN score — a NaN panics,
see claim C10), `plot_pp` succeeds with exactly 3 traces; the second trace
is the dashed reference line with x- and y-data `[0, 1]` (endpoints
`(0,0)` and `(1,1)`); the third trace is a line whose displayed name is
the π₀ estimate formatted to exactly 3 decimal places; and the layout's
axis titles are "Decoy ECDF" and "Target ECDF". -/
theorem claim_C5 (scores : List FP) (labels : List Int) (title : String)
    (hlen : scores.length = labels.length)
    (hlab : ∀ l ∈ labels, l = 1 ∨ l = -1)
    (hT : (partitionTD scores labels).1 ≠ [])
    (hD : (partitionTD scores labels).2 ≠ [])
    (hnan : FP.nan ∉ scores) :
    ∃ p : PlotSpec, plot_pp scores labels title = some (Except.ok p) ∧
      p.traces.length = 3 ∧
      (∃ t1 t3 : PlotTrace, p.traces = [t1,
        { traceType := "scatter", x := [.fin 0, .fin 1],
          y := [.fin 0, .fin 1], mode := some .lines,
          name := "y = x (Perfect match)", lineColor := some "red",
          lineDash := some "dash" }, t3] ∧
        t3.name = "Estimated π₀ = " ++ fmt3 (estimate_pi0 labels) ∧
        t3.mode = some .lines) ∧
      p.layout.xTitle = "Decoy ECDF" ∧ p.layout.yTitle = "Target ECDF" := by
  have hnanT : FP.nan ∉ (partitionTD scores labels).1 :=
    fun hm => hnan (partitionTD_mem_left hm)
  have hnanD : FP.nan ∉ (partitionTD scores labels).2 :=
    fun hm => hnan (partitionTD_mem_right hm)
  obtain ⟨xt, hxt_eq, hxt_perm, _⟩ := ecdf_some hnanT
  obtain ⟨xd, hxd_eq, hxd_perm, _⟩ := ecdf_some hnanD
  have hxtne : xt ≠ [] := fun he => hT (by
    have := hxt_perm.length_eq
    rw [he, List.length_nil] at this
    exact List.length_eq_zero.mp this.symm)
  have hxdne : xd ≠ [] := fun he => hD (by
    have := hxd_perm.length_eq
    rw [he, List.length_nil] at this
    exact List.length_eq_zero.mp this.symm)
  obtain ⟨yti, ydi, hstage⟩ := ppStage2_some xt (ecdfY xt) xd (ecdfY xd)
    (estimate_pi0 labels) title hxtne hxdne (ecdfY_length xt) (ecdfY_length xd)
  refine ⟨{ traces :=
              [{ traceType := "scatter", x := ydi, y := yti,
                 mode := some .markers, name := "Target vs Decoy ECDF" },
               { traceType := "scatter", x := [.fin 0, .fin 1],
                 y := [.fin 0, .fin 1], mode := some .lines,
                 name := "y = x (Perfect match)", lineColor := some "red",
                 lineDash := some "dash" },
               { traceType := "scatter", x := ydi,
                 y := ydi.map (fun v => mulF (estimate_pi0 labels) v),
                 mode := some .lines,
                 name := "Estimated π₀ = " ++ fmt3 (estimate_pi0 labels),
                 lineColor := some "blue", lineDash := some "dot" }],
            layout := { title := title, xTitle := "Decoy ECDF",
                        yTitle := "Target ECDF" } }, ?_, rfl,
    ⟨_, _, rfl, rfl, rfl⟩, rfl, rfl⟩
  unfold plot_pp
  rw [if_neg (not_ne_iff.mpr hlen)]
  rw [if_neg (by
    push_neg
    intro v hv
    exact hlab v hv)]
  rw [hxt_eq, hxd_eq]
  exact hstage

/-- Witness for claim C5 at scores `[1, 2]`, labels `[target, decoy]`. -/
theorem claim_C5_witness :
    ∃ p : PlotSpec,
      plot_pp [FP.fin 1, FP.fin 2] [1, -1] "t" = some (Except.ok p) ∧
      p.traces.length = 3 ∧
      (∃ t1 t3 : PlotTrace, p.traces = [t1,
        { traceType := "scatter", x := [.fin 0, .fin 1],
          y := [.fin 0, .fin 1], mode := some .lines,
          name := "y = x (Perfect match)", lineColor := some "red",
          lineDash := some "dash" }, t3] ∧
        t3.name = "Estimated π₀ = " ++ fmt3 (estimate_pi0 [1, -1]) ∧
        t3.mode = some .lines) ∧
      p.layout.xTitle = "Decoy ECDF" ∧ p.layout.yTitle = "Target ECDF" :=
  claim_C5 [FP.fin 1, FP.fin 2] [1, -1] "t" (by decide)
    (by decide) (by decide) (by decide) (by decide)

theorem BufStore.read_write_self {α : Type} (h : BufStore α) (r : Nat)
    (v : α) : (h.write r v).read r = v := by
  simp [read, write]

theorem BufStore.read_write_ne {α : Type} (h : BufStore α) (r r' : Nat)
    (v : α) (hne : r' ≠ r) : (h.write r v).read r' = h.read r' := by
  simp [read, write, hne]

theorem BufStore.read_alloc_ne {α : Type} (h : BufStore α) (v : α)
    (r' : Nat) (hne : r' ≠ h.next) : (h.alloc v).1.read r' = h.read r' := by
  simp [read, alloc, hne]

theorem BufStore.alloc_ref {α : Type} (h : BufStore α) (v : α) :
    (h.alloc v).2 = h.next := rfl

theorem BufStore.alloc_next {α : Type} (h : BufStore α) (v : α) :
    (h.alloc v).1.next = h.next + 1 := rfl

theorem ecdfH_spec {h : BufStore (List FP)} {r : Nat}
    {h' : BufStore (List FP)} {xv yv : List FP}
    (he : ecdfH h r = some (h', xv, yv)) :
    sortOpt (h.read r) = some xv ∧ h' = h.write r xv ∧ yv = ecdfY xv := by
  unfold ecdfH at he
  split at he
  · exact absurd he (by simp)
  · rename_i s hs
    simp only [Option.some.injEq, Prod.mk.injEq] at he
    obtain ⟨h1, h2, h3⟩ := he
    subst h2
    subst h3
    subst h1
    exact ⟨hs, rfl, rfl⟩

/-- Claim C8: the builders never write through their caller's borrowed
buffers.  Part 1 exhibits the one real mutation in the core: `ecdf` sorts
its `&mut` buffer in place (the buffer afterwards holds the sorted data).
Part 2: `plot_pp` applies that in-place sort only to the two freshly
allocated partition copies, so on success the caller's scores buffer is
unchanged and the labels store is returned untouched.  Parts 3–5: the
histogram, box-plot and scatter builders perform no writes at all, so
their stores come back equal to the input stores. -/
theorem claim_C8 :
    (∀ (h : BufStore (List FP)) (r : Nat) (h' : BufStore (List FP))
        (xv yv : List FP), ecdfH h r = some (h', xv, yv) →
      h'.read r = xv ∧ sortOpt (h.read r) = some xv) ∧
    (∀ (hF : BufStore (List FP)) (hI : BufStore (List Int))
        (sR lR : Nat) (title : String)
        (res : Except String PlotSpec) (hF' : BufStore (List FP))
        (hI' : BufStore (List Int)),
      plot_ppH hF hI sR lR title = some (res, hF', hI') →
      sR < hF.next →
      hF'.read sR = hF.read sR ∧ hI' = hI) ∧
    (∀ (hF : BufStore (List FP)) (hI : BufStore (List Int))
        (sR lR : Nat) (t xt : String) (res : Except String PlotSpec)
        (hF' : BufStore (List FP)) (hI' : BufStore (List Int)),
      plot_score_histogramH hF hI sR lR t xt = some (res, hF', hI') →
      hF' = hF ∧ hI' = hI) ∧
    (∀ (hG : BufStore (List (List FP))) (sR : Nat) (fn : List String)
        (t xt yt : String) (res : Except String PlotSpec)
        (hG' : BufStore (List (List FP))),
      plot_boxplotH hG sR fn t xt yt = some (res, hG') → hG' = hG) ∧
    (∀ (hG : BufStore (List (List FP))) (xR yR : Nat) (lb : List String)
        (t xt yt : String) (res : Except String PlotSpec)
        (hG' : BufStore (List (List FP))),
      plot_scatterH hG xR yR lb t xt yt = some (res, hG') → hG' = hG) := by
  refine ⟨?_, ?_, ?_, ?_, ?_⟩
  · intro h r h' xv yv he
    obtain ⟨hs, hw, _⟩ := ecdfH_spec he
    exact ⟨by rw [hw]; exact BufStore.read_write_self h r xv, hs⟩
  · intro hF hI sR lR title res hF' hI' hp hsR
    unfold plot_ppH at hp
    dsimp only at hp
    split at hp
    · exact absurd hp (by simp)
    · split at hp
      · exact absurd hp (by simp)
      · split at hp
        · exact absurd hp (by simp)
        · rename_i hF3 x_target y_target he1
          split at hp
          · exact absurd hp (by simp)
          · rename_i hF4 x_decoy y_decoy he2
            rcases hst : ppStage2 x_target y_target x_decoy y_decoy
                (estimate_pi0 (hI.read lR)) title with _ | spec
            · rw [hst] at hp
              exact absurd hp (by simp)
            · rw [hst] at hp
              simp only [Option.map_some', Option.some.injEq,
                Prod.mk.injEq] at hp
              obtain ⟨_, h2, h3⟩ := hp
              obtain ⟨_, hw1, _⟩ := ecdfH_spec he1
              obtain ⟨_, hw2, _⟩ := ecdfH_spec he2
              subst h2
              refine ⟨?_, h3.symm⟩
              rw [hw2, hw1]
              rw [BufStore.read_write_ne _ _ _ _ (by
                rw [BufStore.alloc_ref, BufStore.alloc_next]
                omega)]
              rw [BufStore.read_write_ne _ _ _ _ (by
                rw [BufStore.alloc_ref]
                omega)]
              rw [BufStore.read_alloc_ne _ _ _ (by
                rw [BufStore.alloc_next]
                omega)]
              exact BufStore.read_alloc_ne _ _ _ (by omega)
  · intro hF hI sR lR t xt res hF' hI' hp
    unfold plot_score_histogramH at hp
    rcases hh : plot_score_histogram (hF.read sR) (hI.read lR) t xt
        with _ | r0
    · rw [hh] at hp
      exact absurd hp (by simp)
    · rw [hh] at hp
      simp only [Option.map_some', Option.some.injEq, Prod.mk.injEq] at hp
      exact ⟨hp.2.1.symm, hp.2.2.symm⟩
  · intro hG sR fn t xt yt res hG' hp
    unfold plot_boxplotH at hp
    rcases hh : plot_boxplot (hG.read sR) fn t xt yt with _ | r0
    · rw [hh] at hp
      exact absurd hp (by simp)
    · rw [hh] at hp
      simp only [Option.map_some', Option.some.injEq, Prod.mk.injEq] at hp
      exact hp.2.symm
  · intro hG xR yR lb t xt yt res hG' hp
    unfold plot_scatterH at hp
    rcases hh : plot_scatter (hG.read xR) (hG.read yR) lb t xt yt with _ | r0
    · rw [hh] at hp
      exact absurd hp (by simp)
    · rw [hh] at hp
      simp only [Option.map_some', Option.some.injEq, Prod.mk.injEq] at hp
      exact hp.2.symm

/-- Witness for claim C8: one concrete in-place `ecdf` on a one-buffer
store — afterwards the buffer holds the sorted data. -/
theorem claim_C8_witness :
    ecdfH (⟨fun _ => [FP.fin 1], 1⟩ : BufStore (List FP)) 0 =
      some ((⟨fun _ => [FP.fin 1], 1⟩ : BufStore (List FP)).write 0
          [FP.fin 1], [FP.fin 1], ecdfY [FP.fin 1]) ∧
    ((⟨fun _ => [FP.fin 1], 1⟩ : BufStore (List FP)).write 0
        [FP.fin 1]).read 0 = [FP.fin 1] ∧
    sortOpt ((⟨fun _ => [FP.fin 1], 1⟩ : BufStore (List FP)).read 0) =
      some [FP.fin 1] :=
  ⟨rfl, claim_C8.1 (⟨fun _ => [FP.fin 1], 1⟩ : BufStore (List FP)) 0
    ((⟨fun _ => [FP.fin 1], 1⟩ : BufStore (List FP)).write 0 [FP.fin 1])
    [FP.fin 1] (ecdfY [FP.fin 1]) rfl⟩
